import Mathlib

/-!
Shallow embedding of `src/tools/segment_frames.py` (repository
`cyng93/online-courses`), the frame-segmentation core described by the
specification, together with theorems settling the frozen claims.

Modelling conventions:
* Pixel intensities and thresholds (Python floats) are modelled as `ℚ`.
* A numpy array is either 2-dimensional (`Img.gray`) or 3-dimensional
  (`Img.color`), mirroring the `len(img.shape) == 3` test in the source.
* `np.std`, which is the square root of the mean squared deviation, is
  embedded without `Real.sqrt` so that the classifier stays executable:
  the source's comparison `std_dev < blank_threshold` is encoded as
  `0 < blank_threshold ∧ variance < blank_threshold²`, which is proved
  equivalent to the √-formulation over the reals below.
* The filesystem is a list of file names (`List Char`) plus a map from
  file names to decoded images.
* `raise ValueError("No frames found ...")` is modelled by the
  `Except` error case `SegError.noFramesFound`.
-/

namespace SegmentFrames

/-- A file name (or a video identifier), as a list of characters. -/
abbrev Filename := List Char

/-- A decoded image: a 2-dimensional (grayscale) or 3-dimensional (color)
array of pixel intensities, mirroring numpy's `img.shape`. -/
inductive Img where
  | gray (rows : List (List ℚ))
  | color (rows : List (List (List ℚ)))
deriving DecidableEq

/-- `np.mean` of a flat list of values (mean over all elements). -/
def listMean (xs : List ℚ) : ℚ := xs.sum / (xs.length : ℚ)

/-- The grayscale reduction performed at the start of `is_blank_frame`:
`np.mean(img, axis=2)` for a 3-dimensional array (per-pixel mean over
channels), the raw values otherwise.  The result is returned as the flat
list of luminance values (the subsequent `np.std` is over all pixels). -/
def luminance : Img → List ℚ
  | Img.gray rows => rows.flatten
  | Img.color rows => rows.flatten.map listMean

/-- `np.std` is `Real.sqrt (variance xs)`; `variance` is the mean squared
deviation from the mean, over all elements. -/
def variance (xs : List ℚ) : ℚ := listMean (xs.map fun x => (x - listMean xs) ^ 2)

/-- Executable encoding of `Real.sqrt v < t` (for the variance `v`, which
is a mean of squares): `√v < t ↔ 0 < t ∧ v < t * t`. -/
def sqrtLtB (v t : ℚ) : Bool := decide (0 < t) && decide (v < t * t)

/-- `is_blank_frame` from the source: the frame is blank when the standard
deviation of its luminance is strictly below `blank_threshold`. -/
def is_blank_frame (img : Img) (blank_threshold : ℚ) : Bool :=
  sqrtLtB (variance (luminance img)) blank_threshold

/-- All scalar entries of an image, channels kept separate (the array that
`np.abs(img1 - img2)` and `np.mean` range over). -/
def imgVals : Img → List ℚ
  | Img.gray rows => rows.flatten
  | Img.color rows => rows.flatten.flatten

/-- `calculate_frame_difference` from the source: mean absolute pixel
difference of two same-shaped frames (the `zip` realizes element-wise
alignment of equal-shaped arrays; the source promotes to float32 first,
which `ℚ` models exactly). -/
def calculate_frame_difference (img1 img2 : Img) : ℚ :=
  listMean (((imgVals img1).zip (imgVals img2)).map fun p => |p.1 - p.2|)

/-- The segment record built by `segment_frames` (the `current_segment`
dictionary of the source). -/
structure Segment where
  video_id : Filename
  segment_id : Nat
  start_time : Int
  end_time : Int
  start_frame : Nat
  end_frame : Nat
  frame_count : Nat
  representative_frame : Filename
deriving DecidableEq

/-- One input frame, as the loader hands it to the loop:
frame number, file name, decoded image. -/
abbrev FrameIn := Nat × Filename × Img

/-- Frame number of an input frame. -/
def fnum (f : FrameIn) : Nat := f.1

/-- File name of an input frame. -/
def ffn (f : FrameIn) : Filename := f.2.1

/-- Decoded image of an input frame. -/
def fimg (f : FrameIn) : Img := f.2.2

/-- The loop state of `segment_frames`: the emitted segments, the open
`current_segment` (if any) and the previous frame's image. -/
structure SegState where
  segments : List Segment
  current : Option Segment
  prev : Option Img
deriving DecidableEq

/-- `is_same_subtitle` of the source: defined (and `True`) only when a
previous frame exists, is not blank, and the mean difference is strictly
below `diff_threshold`; `False` for the first frame or after a blank. -/
def isSameAt (blank_threshold diff_threshold : ℚ) (prev : Option Img) (img : Img) : Bool :=
  match prev with
  | some p => !is_blank_frame p blank_threshold &&
      decide (calculate_frame_difference p img < diff_threshold)
  | none => false

/-- The fresh `current_segment` dictionary the source builds when a new
segment starts; `k` is the number of segments already emitted
(`len(segments)` after the pending append), timestamp is `frame_num - 1`. -/
def newSeg (vid : Filename) (k : Nat) (f : FrameIn) : Segment :=
  { video_id := vid
    segment_id := k + 1
    start_time := (fnum f : Int) - 1
    end_time := (fnum f : Int) - 1
    start_frame := fnum f
    end_frame := fnum f
    frame_count := 1
    representative_frame := ffn f }

/-- The in-place update of `current_segment` when the subtitle is the same:
`end_time`, `end_frame` and `frame_count` advance, all else is kept. -/
def extendSeg (c : Segment) (f : FrameIn) : Segment :=
  { c with
    end_time := (fnum f : Int) - 1
    end_frame := fnum f
    frame_count := c.frame_count + 1 }

/-- One iteration of the loop body of `segment_frames` over frame `f`.
The unreachable combination "same subtitle but no open segment" (the
source would dereference `None` there; it cannot arise from the initial
state because a same-subtitle verdict requires a non-blank previous frame,
which always leaves a segment open) is modelled as leaving the state's
segment data unchanged. -/
def segStep (vid : Filename) (diff_threshold blank_threshold : ℚ)
    (st : SegState) (f : FrameIn) : SegState :=
  if is_blank_frame (fimg f) blank_threshold then
    { segments := st.segments ++ st.current.toList, current := none, prev := some (fimg f) }
  else if isSameAt blank_threshold diff_threshold st.prev (fimg f) then
    match st.current with
    | some c => { segments := st.segments, current := some (extendSeg c f), prev := some (fimg f) }
    | none => { segments := st.segments, current := none, prev := some (fimg f) }
  else
    { segments := st.segments ++ st.current.toList
      current := some (newSeg vid (st.segments ++ st.current.toList).length f)
      prev := some (fimg f) }

/-- The segments a state accounts for: the emitted ones followed by the
open one (the source appends `current_segment` after the loop). -/
def rawOf (st : SegState) : List Segment := st.segments ++ st.current.toList

/-- The segment list of `segment_frames` before the minimum-duration
filter: the forward pass over the (already sorted) frames, plus the final
unconditional close of the open segment. -/
def segmentFramesRaw (vid : Filename) (diff_threshold blank_threshold : ℚ)
    (frames : List FrameIn) : List Segment :=
  rawOf (frames.foldl (segStep vid diff_threshold blank_threshold)
    { segments := [], current := none, prev := none })

/-- The post-pass minimum-duration filter of the source: keep a segment
iff `end_time - start_time + 1 >= min_segment_duration`. -/
def filterShort (min_segment_duration : Int) (segs : List Segment) : List Segment :=
  segs.filter fun seg => decide (min_segment_duration ≤ seg.end_time - seg.start_time + 1)

/-- `segment_frames`' final result for a given frame sequence: the raw
pass followed by the duration filter. -/
def segmentFramesFiltered (vid : Filename) (diff_threshold blank_threshold : ℚ)
    (min_segment_duration : Int) (frames : List FrameIn) : List Segment :=
  filterShort min_segment_duration (segmentFramesRaw vid diff_threshold blank_threshold frames)

/-- Numeric value of a decimal digit character. -/
def digitVal (c : Char) : Nat := c.toNat - 48

/-- The anchored regular expression `^{video_id}_(\d{4})\.jpg$` of the
source, together with `int(match.group(1))`: the file name must be the
literal video id (`re.escape`), an underscore, exactly four digits, and
the literal suffix `.jpg`; the result is the numeric value of the four
digits. -/
def matchFrame (vid : Filename) (fn : Filename) : Option Nat :=
  if fn.take vid.length = vid then
    match fn.drop vid.length with
    | '_' :: d1 :: d2 :: d3 :: d4 :: rest =>
      if rest = ['.', 'j', 'p', 'g'] ∧
          (d1.isDigit ∧ d2.isDigit ∧ d3.isDigit ∧ d4.isDigit) then
        some (((digitVal d1 * 10 + digitVal d2) * 10 + digitVal d3) * 10 + digitVal d4)
      else none
    | _ => none
  else none

/-- Insertion into a list sorted by frame number (stable). -/
def insertFrame (x : Nat × Filename) : List (Nat × Filename) → List (Nat × Filename)
  | [] => [x]
  | y :: ys => if x.1 ≤ y.1 then x :: y :: ys else y :: insertFrame x ys

/-- Stable insertion sort by frame number, modelling the net effect of
`sorted(os.listdir(...))` followed by `frame_files.sort()` (the matched
file name is determined by the frame number, so sorting by the number
agrees with sorting by the `(frame_num, filename)` pair). -/
def sortFrames : List (Nat × Filename) → List (Nat × Filename)
  | [] => []
  | x :: xs => insertFrame x (sortFrames xs)

/-- The loader: pattern-match every directory entry and sort the hits by
frame number. -/
def findFrameFiles (vid : Filename) (listing : List Filename) : List (Nat × Filename) :=
  sortFrames (listing.filterMap fun fn => (matchFrame vid fn).map fun n => (n, fn))

/-- The failure taxonomy of the segmentation core (the source raises
`ValueError("No frames found for video_id: ...")`, called
`NoFramesFoundError` by the specification). -/
inductive SegError where
  | noFramesFound
deriving DecidableEq

/-- The whole `segment_frames` entry point over a modelled directory:
`listing` is the directory content, `imgOf` decodes a file name into its
image.  Fails before any segmentation work when no file matches. -/
def segment_frames (listing : List Filename) (imgOf : Filename → Img) (vid : Filename)
    (diff_threshold blank_threshold : ℚ) (min_segment_duration : Int) :
    Except SegError (List Segment) :=
  let frame_files := findFrameFiles vid listing
  if frame_files.isEmpty then
    Except.error SegError.noFramesFound
  else
    Except.ok (segmentFramesFiltered vid diff_threshold blank_threshold min_segment_duration
      (frame_files.map fun p => (p.1, p.2, imgOf p.2)))

/-- Membership of a frame number in a segment's frame range. -/
def inRange (n : Nat) (s : Segment) : Bool :=
  decide (s.start_frame ≤ n ∧ n ≤ s.end_frame)

/-- Number of segments the state accounts for. -/
def rawLen (st : SegState) : Nat := (rawOf st).length

/-- Reachability fact used throughout: when the previous frame exists and
is not blank, a segment is open. -/
def prevOk (bt : ℚ) (st : SegState) : Prop :=
  ∀ p, st.prev = some p → is_blank_frame p bt = false → st.current.isSome = true

/-- The invariant of the forward pass of `segment_frames`, relating the
loop state to the list `done` of frames already processed. -/
structure SegInv (bt : ℚ) (done : List FrameIn) (st : SegState) : Prop where
  ordered : (rawOf st).Pairwise fun a b => a.end_frame < b.start_frame
  bounds : ∀ s ∈ rawOf st, s.start_frame ≤ s.end_frame
  times : ∀ s ∈ rawOf st, s.start_time = (s.start_frame : Int) - 1 ∧
    s.end_time = (s.end_frame : Int) - 1
  endsLe : ∀ s ∈ rawOf st, ∃ g ∈ done, s.end_frame = fnum g
  ids : (rawOf st).map Segment.segment_id = List.range' 1 (rawOf st).length
  counts : ∀ s ∈ rawOf st,
    s.frame_count = done.countP fun g => !is_blank_frame (fimg g) bt && inRange (fnum g) s
  cover : ∀ g ∈ done, (rawOf st).countP (inRange (fnum g)) =
    if is_blank_frame (fimg g) bt then 0 else 1
  prevEq : st.prev = done.getLast?.map fimg
  curSome : st.current.isSome = done.getLast?.elim false fun g => !is_blank_frame (fimg g) bt
  curEnd : ∀ c, st.current = some c → ∃ g, done.getLast? = some g ∧ c.end_frame = fnum g

/-- The invariant connecting `frame_count` to the frame-number span when
the processed frames are consecutive. -/
structure ContigInv (done : List FrameIn) (st : SegState) : Prop where
  cnt : ∀ s ∈ rawOf st, (s.frame_count : Int) = (s.end_frame : Int) - (s.start_frame : Int) + 1
  curEnd : ∀ c, st.current = some c → ∃ g, done.getLast? = some g ∧ c.end_frame = fnum g

/-! ## Concrete scenarios

Scenario A is the specification's worked example: frames `0001..0005` are
content frames with pairwise mean difference 5 (below the default
threshold 15), frame `0006` is blank, frame `0007` is content. -/

def vidA : Filename := ['v']

def fnA (c : Char) : Filename := ['v', '_', '0', '0', '0', c, '.', 'j', 'p', 'g']

def frameA1 : FrameIn := (1, fnA '1', Img.gray [[0, 255]])

def frameA2 : FrameIn := (2, fnA '2', Img.gray [[10, 255]])

def frameA3 : FrameIn := (3, fnA '3', Img.gray [[20, 255]])

def frameA4 : FrameIn := (4, fnA '4', Img.gray [[30, 255]])

def frameA5 : FrameIn := (5, fnA '5', Img.gray [[40, 255]])

def frameA6 : FrameIn := (6, fnA '6', Img.gray [[100, 100]])

def frameA7 : FrameIn := (7, fnA '7', Img.gray [[50, 255]])

def framesA : List FrameIn :=
  [frameA1, frameA2, frameA3, frameA4, frameA5, frameA6, frameA7]

/-- The first segment of scenario A: frames 1-5, times 0-4. -/
def segA1 : Segment :=
  { video_id := vidA
    segment_id := 1
    start_time := 0
    end_time := 4
    start_frame := 1
    end_frame := 5
    frame_count := 5
    representative_frame := fnA '1' }

/-- The second segment of scenario A: frame 7 alone, time 6. -/
def segA2 : Segment :=
  { video_id := vidA
    segment_id := 2
    start_time := 6
    end_time := 6
    start_frame := 7
    end_frame := 7
    frame_count := 1
    representative_frame := fnA '7' }

/-! Scenario B: a single content frame numbered 11 (time 10), for the
minimum-duration scenario of the specification. -/

def fnB : Filename := ['v', '_', '0', '0', '1', '1', '.', 'j', 'p', 'g']

def frameB1 : FrameIn := (11, fnB, Img.gray [[0, 255]])

def framesB : List FrameIn := [frameB1]

/-- The only raw segment of scenario B: `start_time = 10, end_time = 10`. -/
def segB1 : Segment :=
  { video_id := vidA
    segment_id := 1
    start_time := 10
    end_time := 10
    start_frame := 11
    end_frame := 11
    frame_count := 1
    representative_frame := fnB }

/-! Scenario C: two content frames whose mean difference is 10, with
`blank_threshold = 0` (nothing is blank) and `min_segment_duration = 2`. -/

def frameC1 : FrameIn := (1, fnA '1', Img.gray [[0]])

def frameC2 : FrameIn := (2, fnA '2', Img.gray [[10]])

def framesC : List FrameIn := [frameC1, frameC2]

/-- First duration-1 segment of scenario C under the small threshold. -/
def segC1 : Segment :=
  { video_id := vidA
    segment_id := 1
    start_time := 0
    end_time := 0
    start_frame := 1
    end_frame := 1
    frame_count := 1
    representative_frame := fnA '1' }

/-- Second duration-1 segment of scenario C under the small threshold. -/
def segC2 : Segment :=
  { video_id := vidA
    segment_id := 2
    start_time := 1
    end_time := 1
    start_frame := 2
    end_frame := 2
    frame_count := 1
    representative_frame := fnA '2' }

/-- The single merged segment of scenario C under the large threshold. -/
def segC12 : Segment :=
  { video_id := vidA
    segment_id := 1
    start_time := 0
    end_time := 1
    start_frame := 1
    end_frame := 2
    frame_count := 2
    representative_frame := fnA '1' }

/-! ## Basic lemmas about the classifier and one loop iteration -/

theorem sqrtLtB_iff (v t : ℚ) : sqrtLtB v t = true ↔ Real.sqrt (v : ℝ) < (t : ℝ) := by
  unfold sqrtLtB
  simp only [Bool.and_eq_true, decide_eq_true_eq]
  constructor
  · rintro ⟨h0, hv⟩
    have h0' : (0 : ℝ) < (t : ℝ) := by exact_mod_cast h0
    rw [Real.sqrt_lt' h0', sq]
    exact_mod_cast hv
  · intro h
    have h0' : (0 : ℝ) < (t : ℝ) := lt_of_le_of_lt (Real.sqrt_nonneg _) h
    rw [Real.sqrt_lt' h0', sq] at h
    exact ⟨by exact_mod_cast h0', by exact_mod_cast h⟩

theorem is_blank_frame_mono {b1 b2 : ℚ} (h : b1 ≤ b2) (img : Img)
    (hb : is_blank_frame img b1 = true) : is_blank_frame img b2 = true := by
  unfold is_blank_frame sqrtLtB at hb ⊢
  simp only [Bool.and_eq_true, decide_eq_true_eq] at hb ⊢
  obtain ⟨h0, hv⟩ := hb
  exact ⟨lt_of_lt_of_le h0 h,
    lt_of_lt_of_le hv (mul_le_mul h h (le_of_lt h0) (le_trans (le_of_lt h0) h))⟩

theorem isSameAt_mono (bt : ℚ) {t1 t2 : ℚ} (h : t1 ≤ t2) (p : Option Img) (img : Img)
    (hs : isSameAt bt t1 p img = true) : isSameAt bt t2 p img = true := by
  cases p with
  | none => simp [isSameAt] at hs
  | some q =>
    simp only [isSameAt, Bool.and_eq_true, decide_eq_true_eq] at hs ⊢
    exact ⟨hs.1, lt_of_lt_of_le hs.2 h⟩

/-- When the current frame is considered the same subtitle, the previous
frame exists and is not blank. -/
theorem isSameAt_prev {bt dt : ℚ} {pv : Option Img} {img : Img}
    (hs : isSameAt bt dt pv img = true) :
    ∃ p, pv = some p ∧ is_blank_frame p bt = false := by
  cases hpv : pv with
  | none => rw [hpv] at hs; simp [isSameAt] at hs
  | some p =>
    refine ⟨p, rfl, ?_⟩
    rw [hpv] at hs
    simp only [isSameAt, Bool.and_eq_true, Bool.not_eq_true'] at hs
    exact hs.1

theorem segStep_blank (vid : Filename) (dt bt : ℚ) (st : SegState) (f : FrameIn)
    (hb : is_blank_frame (fimg f) bt = true) :
    segStep vid dt bt st f =
      { segments := rawOf st, current := none, prev := some (fimg f) } := by
  simp [segStep, hb, rawOf]

theorem segStep_open (vid : Filename) (dt bt : ℚ) (st : SegState) (f : FrameIn)
    (hb : is_blank_frame (fimg f) bt = false)
    (hs : isSameAt bt dt st.prev (fimg f) = false) :
    segStep vid dt bt st f =
      { segments := rawOf st
        current := some (newSeg vid (rawOf st).length f)
        prev := some (fimg f) } := by
  simp [segStep, hb, hs, rawOf]

theorem segStep_extend (vid : Filename) (dt bt : ℚ) (st : SegState) (f : FrameIn)
    (hb : is_blank_frame (fimg f) bt = false)
    (hs : isSameAt bt dt st.prev (fimg f) = true)
    (c : Segment) (hc : st.current = some c) :
    segStep vid dt bt st f =
      { segments := st.segments, current := some (extendSeg c f), prev := some (fimg f) } := by
  simp [segStep, hb, hs, hc]

theorem segStep_same_none (vid : Filename) (dt bt : ℚ) (st : SegState) (f : FrameIn)
    (hb : is_blank_frame (fimg f) bt = false)
    (hs : isSameAt bt dt st.prev (fimg f) = true)
    (hc : st.current = none) :
    segStep vid dt bt st f =
      { segments := st.segments, current := none, prev := some (fimg f) } := by
  simp [segStep, hb, hs, hc]

/-! ## Monotonicity in the difference threshold (raw segment count) -/

theorem rawLen_state (segs : List Segment) (cur : Option Segment) (pv : Option Img) :
    rawLen { segments := segs, current := cur, prev := pv } = segs.length + cur.toList.length := by
  simp [rawLen, rawOf]

theorem rawLen_def (st : SegState) :
    rawLen st = st.segments.length + st.current.toList.length := by
  simp [rawLen, rawOf]

theorem segStep_sync (vid : Filename) (bt : ℚ) {t1 t2 : ℚ} (h12 : t1 ≤ t2)
    (s1 s2 : SegState) (f : FrameIn)
    (hp : s1.prev = s2.prev) (hc : s1.current.isSome = s2.current.isSome)
    (h1 : prevOk bt s1) (h2 : prevOk bt s2)
    (hl : rawLen s2 ≤ rawLen s1) :
    (segStep vid t1 bt s1 f).prev = (segStep vid t2 bt s2 f).prev ∧
    (segStep vid t1 bt s1 f).current.isSome = (segStep vid t2 bt s2 f).current.isSome ∧
    prevOk bt (segStep vid t1 bt s1 f) ∧ prevOk bt (segStep vid t2 bt s2 f) ∧
    rawLen (segStep vid t2 bt s2 f) ≤ rawLen (segStep vid t1 bt s1 f) := by
  by_cases hb : is_blank_frame (fimg f) bt = true
  · rw [segStep_blank vid t1 bt s1 f hb, segStep_blank vid t2 bt s2 f hb]
    have hcontra : ∀ st' : SegState, st'.prev = some (fimg f) → prevOk bt st' := by
      intro st' h' p hp' hnb
      rw [h', Option.some_inj] at hp'
      rw [← hp', hb] at hnb
      simp at hnb
    refine ⟨rfl, rfl, hcontra _ rfl, hcontra _ rfl, ?_⟩
    rw [rawLen_def s1, rawLen_def s2] at hl
    rw [rawLen_state, rawLen_state]
    simp only [Option.toList_none, List.length_nil, rawOf, List.length_append]
    omega
  · rw [Bool.not_eq_true] at hb
    have hok : ∀ st' : SegState, st'.current.isSome = true → prevOk bt st' := by
      intro st' h2' p hp' hnb
      exact h2'
    by_cases hs1 : isSameAt bt t1 s1.prev (fimg f) = true
    · -- both runs see "same subtitle": both must have an open segment
      have hs2 : isSameAt bt t2 s2.prev (fimg f) = true := by
        rw [← hp]; exact isSameAt_mono bt h12 s1.prev (fimg f) hs1
      obtain ⟨p, hpv, hpb⟩ := isSameAt_prev hs1
      have hc1 : s1.current.isSome = true := h1 p hpv hpb
      have hc2 : s2.current.isSome = true := h2 p (hp ▸ hpv) hpb
      obtain ⟨c1, hc1'⟩ := Option.isSome_iff_exists.mp hc1
      obtain ⟨c2, hc2'⟩ := Option.isSome_iff_exists.mp hc2
      rw [segStep_extend vid t1 bt s1 f hb hs1 c1 hc1',
        segStep_extend vid t2 bt s2 f hb hs2 c2 hc2']
      refine ⟨rfl, rfl, hok _ rfl, hok _ rfl, ?_⟩
      rw [rawLen_state, rawLen_state]
      have l1 : rawLen s1 = s1.segments.length + 1 := by
        rw [rawLen_def, hc1']; simp
      have l2 : rawLen s2 = s2.segments.length + 1 := by
        rw [rawLen_def, hc2']; simp
      simp only [Option.toList_some, List.length_singleton]
      omega
    · rw [Bool.not_eq_true] at hs1
      by_cases hs2 : isSameAt bt t2 s2.prev (fimg f) = true
      · -- the smaller threshold opens a new segment, the larger extends
        obtain ⟨p, hpv, hpb⟩ := isSameAt_prev hs2
        obtain ⟨c2, hc2'⟩ := Option.isSome_iff_exists.mp (h2 p hpv hpb)
        rw [segStep_open vid t1 bt s1 f hb hs1,
          segStep_extend vid t2 bt s2 f hb hs2 c2 hc2']
        refine ⟨rfl, rfl, hok _ rfl, hok _ rfl, ?_⟩
        rw [rawLen_state, rawLen_state]
        have l2 : rawLen s2 = s2.segments.length + 1 := by
          rw [rawLen_def, hc2']; simp
        rw [rawLen_def s1, rawLen_def s2] at hl
        simp only [Option.toList_some, List.length_singleton, rawLen_def, rawOf,
          List.length_append]
        omega
      · rw [Bool.not_eq_true] at hs2
        rw [segStep_open vid t1 bt s1 f hb hs1, segStep_open vid t2 bt s2 f hb hs2]
        refine ⟨rfl, rfl, hok _ rfl, hok _ rfl, ?_⟩
        rw [rawLen_state, rawLen_state]
        rw [rawLen_def s1, rawLen_def s2] at hl
        simp only [Option.toList_some, List.length_singleton, rawLen_def, rawOf,
          List.length_append]
        omega

theorem foldl_rawLen_antitone (vid : Filename) (bt : ℚ) {t1 t2 : ℚ} (h12 : t1 ≤ t2) :
    ∀ (frames : List FrameIn) (s1 s2 : SegState),
      s1.prev = s2.prev → s1.current.isSome = s2.current.isSome →
      prevOk bt s1 → prevOk bt s2 → rawLen s2 ≤ rawLen s1 →
      rawLen (frames.foldl (segStep vid t2 bt) s2) ≤
        rawLen (frames.foldl (segStep vid t1 bt) s1) := by
  intro frames
  induction frames with
  | nil => intro s1 s2 _ _ _ _ hl; exact hl
  | cons f fs ih =>
    intro s1 s2 hp hc h1 h2 hl
    obtain ⟨hp', hc', h1', h2', hl'⟩ := segStep_sync vid bt h12 s1 s2 f hp hc h1 h2 hl
    exact ih _ _ hp' hc' h1' h2' hl'

/-! ## The forward-pass invariant -/

theorem inRange_true_iff (n : Nat) (s : Segment) :
    inRange n s = true ↔ s.start_frame ≤ n ∧ n ≤ s.end_frame := by
  simp [inRange]

theorem inRange_false_of_lt {n : Nat} {s : Segment} (h : s.end_frame < n) :
    inRange n s = false := by
  simp only [inRange, decide_eq_false_iff_not]
  omega

theorem inRange_false_of_gt {n : Nat} {s : Segment} (h : n < s.start_frame) :
    inRange n s = false := by
  simp only [inRange, decide_eq_false_iff_not]
  omega

theorem mem_le_getLast : ∀ (l : List FrameIn),
    List.Pairwise (fun a b => fnum a < fnum b) l →
    ∀ (g : FrameIn), l.getLast? = some g → ∀ x ∈ l, fnum x ≤ fnum g := by
  intro l
  induction l with
  | nil => intro _ g hg; simp at hg
  | cons a t ih =>
    intro hp g hg x hx
    cases t with
    | nil =>
      simp at hg hx
      rw [hx, hg]
    | cons b t' =>
      rw [List.getLast?_cons_cons] at hg
      rcases List.mem_cons.mp hx with rfl | hx'
      · exact le_of_lt ((List.pairwise_cons.mp hp).1 g (List.mem_of_mem_getLast? hg))
      · exact ih (List.pairwise_cons.mp hp).2 g hg x hx'

theorem segInv_init (bt : ℚ) :
    SegInv bt [] { segments := [], current := none, prev := none } := by
  refine ⟨?_, ?_, ?_, ?_, ?_, ?_, ?_, ?_, ?_, ?_⟩
  · simp [rawOf]
  · intro s hs; simp [rawOf] at hs
  · intro s hs; simp [rawOf] at hs
  · intro s hs; simp [rawOf] at hs
  · simp [rawOf]
  · intro s hs; simp [rawOf] at hs
  · intro g hg; simp at hg
  · rfl
  · rfl
  · intro c hc; simp at hc

theorem segInv_step (vid : Filename) (dt bt : ℚ) (done : List FrameIn) (st : SegState)
    (f : FrameIn)
    (hd : ∀ g ∈ done, fnum g < fnum f)
    (hds : List.Pairwise (fun a b => fnum a < fnum b) done)
    (h : SegInv bt done st) :
    SegInv bt (done ++ [f]) (segStep vid dt bt st f) := by
  have hend : ∀ s ∈ rawOf st, s.end_frame < fnum f := by
    intro s hs
    obtain ⟨g, hg, he⟩ := h.endsLe s hs
    rw [he]; exact hd g hg
  have hnotin : ∀ s ∈ rawOf st, inRange (fnum f) s = false := fun s hs =>
    inRange_false_of_lt (hend s hs)
  have hlast : (done ++ [f]).getLast? = some f := List.getLast?_concat done
  by_cases hb : is_blank_frame (fimg f) bt = true
  · -- blank frame: close the open segment, open nothing
    rw [segStep_blank vid dt bt st f hb]
    have hraw : rawOf { segments := rawOf st, current := none, prev := some (fimg f) } =
        rawOf st := by simp [rawOf]
    refine ⟨?_, ?_, ?_, ?_, ?_, ?_, ?_, ?_, ?_, ?_⟩
    · rw [hraw]; exact h.ordered
    · rw [hraw]; exact h.bounds
    · rw [hraw]; exact h.times
    · rw [hraw]
      intro s hs
      obtain ⟨g, hg, he⟩ := h.endsLe s hs
      exact ⟨g, List.mem_append_left _ hg, he⟩
    · rw [hraw]; exact h.ids
    · rw [hraw]
      intro s hs
      rw [List.countP_append, ← h.counts s hs]
      simp [List.countP_cons, hb]
    · rw [hraw]
      intro g hg
      rcases List.mem_append.mp hg with hg' | hg'
      · exact h.cover g hg'
      · simp only [List.mem_singleton] at hg'
        subst hg'
        rw [hb]
        simp only [if_true]
        exact List.countP_eq_zero.mpr fun s hs => by simp [hnotin s hs]
    · simp [hlast]
    · simp [hlast, hb]
    · intro c hc; simp at hc
  · rw [Bool.not_eq_true] at hb
    by_cases hs : isSameAt bt dt st.prev (fimg f) = true
    · -- same subtitle: extend the (necessarily open) current segment
      obtain ⟨p, hpv, hpb⟩ := isSameAt_prev hs
      have hg : ∃ g, done.getLast? = some g ∧ fimg g = p := by
        rw [h.prevEq] at hpv
        cases hgl : done.getLast? with
        | none => rw [hgl] at hpv; simp at hpv
        | some g => rw [hgl] at hpv; simp at hpv; exact ⟨g, rfl, hpv⟩
      obtain ⟨g, hgl, hgp⟩ := hg
      have hgb : is_blank_frame (fimg g) bt = false := by rw [hgp]; exact hpb
      have hcur : st.current.isSome = true := by rw [h.curSome, hgl]; simp [hgb]
      obtain ⟨c, hc⟩ := Option.isSome_iff_exists.mp hcur
      obtain ⟨g', hgl', hce⟩ := h.curEnd c hc
      rw [hgl] at hgl'
      injection hgl' with hgg
      subst hgg
      have hgmem : g ∈ done := List.mem_of_mem_getLast? hgl
      have hgn : fnum g < fnum f := hd g hgmem
      have hdone_le : ∀ x ∈ done, fnum x ≤ fnum g := mem_le_getLast done hds g hgl
      have hRO : rawOf st = st.segments ++ [c] := by simp [rawOf, hc]
      have hcmem : c ∈ rawOf st := by rw [hRO]; simp
      have hcb : c.start_frame ≤ c.end_frame := h.bounds c hcmem
      have hcn : c.end_frame < fnum f := hend c hcmem
      have hpw := List.pairwise_append.mp (hRO ▸ h.ordered)
      have hcross : ∀ a ∈ st.segments, a.end_frame < c.start_frame := by
        intro a ha
        exact hpw.2.2 a ha c (List.mem_singleton_self c)
      -- the frame ranges of `c` and of the extended `c` agree on all
      -- already-processed frame numbers
      have hagree : ∀ x ∈ done, inRange (fnum x) (extendSeg c f) = inRange (fnum x) c := by
        intro x hx
        have hxg : fnum x ≤ fnum g := hdone_le x hx
        rw [Bool.eq_iff_iff, inRange_true_iff, inRange_true_iff]
        simp only [extendSeg]
        omega
      rw [segStep_extend vid dt bt st f hb hs c hc]
      have hraw :
          rawOf { segments := st.segments, current := some (extendSeg c f), prev := some (fimg f) } =
            st.segments ++ [extendSeg c f] := by simp [rawOf]
      have hcf : inRange (fnum f) (extendSeg c f) = true := by
        rw [inRange_true_iff]
        simp only [extendSeg]
        omega
      refine ⟨?_, ?_, ?_, ?_, ?_, ?_, ?_, ?_, ?_, ?_⟩
      · rw [hraw]
        rw [List.pairwise_append]
        refine ⟨hpw.1, by simp, ?_⟩
        intro a ha b hb'
        simp only [List.mem_singleton] at hb'
        subst hb'
        simp only [extendSeg]
        exact hcross a ha
      · rw [hraw]
        intro s hs'
        rcases List.mem_append.mp hs' with hs'' | hs''
        · exact h.bounds s (by rw [hRO]; exact List.mem_append_left _ hs'')
        · simp only [List.mem_singleton] at hs''
          subst hs''
          simp only [extendSeg]
          omega
      · rw [hraw]
        intro s hs'
        rcases List.mem_append.mp hs' with hs'' | hs''
        · exact h.times s (by rw [hRO]; exact List.mem_append_left _ hs'')
        · simp only [List.mem_singleton] at hs''
          subst hs''
          have ht := h.times c hcmem
          simp only [extendSeg]
          exact ⟨ht.1, by simp⟩
      · rw [hraw]
        intro s hs'
        rcases List.mem_append.mp hs' with hs'' | hs''
        · obtain ⟨g0, hg0, he0⟩ := h.endsLe s (by rw [hRO]; exact List.mem_append_left _ hs'')
          exact ⟨g0, List.mem_append_left _ hg0, he0⟩
        · simp only [List.mem_singleton] at hs''
          subst hs''
          exact ⟨f, List.mem_append_right _ (List.mem_singleton_self f), rfl⟩
      · rw [hraw]
        have hmap : (st.segments ++ [extendSeg c f]).map Segment.segment_id =
            (st.segments ++ [c]).map Segment.segment_id := by
          simp [extendSeg]
        have hlen : (st.segments ++ [extendSeg c f]).length =
            (st.segments ++ [c]).length := by simp
        rw [hmap, hlen, ← hRO, h.ids]
      · rw [hraw]
        intro s hs'
        rcases List.mem_append.mp hs' with hs'' | hs''
        · have hsm : s ∈ rawOf st := by rw [hRO]; exact List.mem_append_left _ hs''
          rw [List.countP_append, ← h.counts s hsm]
          simp [List.countP_cons, hnotin s hsm]
        · simp only [List.mem_singleton] at hs''
          subst hs''
          have hcc := h.counts c hcmem
          have hcongr : done.countP
              (fun g0 => !is_blank_frame (fimg g0) bt && inRange (fnum g0) (extendSeg c f)) =
              done.countP
              (fun g0 => !is_blank_frame (fimg g0) bt && inRange (fnum g0) c) := by
            apply List.countP_congr
            intro x hx
            rw [hagree x hx]
          rw [List.countP_append, hcongr, ← hcc]
          have hff : (!is_blank_frame (fimg f) bt && inRange (fnum f) (extendSeg c f)) = true := by
            rw [hb, hcf]; rfl
          simp only [List.countP_cons, List.countP_nil, hff]
          simp [extendSeg]
      · rw [hraw]
        intro g0 hg0
        rcases List.mem_append.mp hg0 with hg0' | hg0'
        · have := h.cover g0 hg0'
          rw [hRO, List.countP_append] at this
          rw [List.countP_append]
          have heq : List.countP (inRange (fnum g0)) [extendSeg c f] =
              List.countP (inRange (fnum g0)) [c] := by
            simp only [List.countP_cons, List.countP_nil]
            rw [hagree g0 hg0']
          rw [heq]
          exact this
        · simp only [List.mem_singleton] at hg0'
          rw [hg0']
          rw [hb]
          simp only [Bool.false_eq_true, if_false]
          rw [List.countP_append]
          have h0 : List.countP (inRange (fnum f)) st.segments = 0 :=
            List.countP_eq_zero.mpr fun s hs' => by
              simp [hnotin s (by rw [hRO]; exact List.mem_append_left _ hs')]
          rw [h0]
          simp [List.countP_cons, hcf]
      · simp [hlast]
      · simp [hlast, hb]
      · intro c' hc'
        simp only [Option.some_inj] at hc'
        subst hc'
        exact ⟨f, hlast, by simp [extendSeg]⟩
    · rw [Bool.not_eq_true] at hs
      -- different subtitle (or first content frame): open a new segment
      rw [segStep_open vid dt bt st f hb hs]
      have hraw :
          rawOf { segments := rawOf st
                  current := some (newSeg vid (rawOf st).length f)
                  prev := some (fimg f) } =
            rawOf st ++ [newSeg vid (rawOf st).length f] := by
        simp [rawOf]
      have hnewr : inRange (fnum f) (newSeg vid (rawOf st).length f) = true := by
        rw [inRange_true_iff]
        simp [newSeg]
      refine ⟨?_, ?_, ?_, ?_, ?_, ?_, ?_, ?_, ?_, ?_⟩
      · rw [hraw]
        rw [List.pairwise_append]
        refine ⟨h.ordered, by simp, ?_⟩
        intro a ha b hb'
        simp only [List.mem_singleton] at hb'
        subst hb'
        simp only [newSeg]
        exact hend a ha
      · rw [hraw]
        intro s hs'
        rcases List.mem_append.mp hs' with hs'' | hs''
        · exact h.bounds s hs''
        · simp only [List.mem_singleton] at hs''
          subst hs''
          simp [newSeg]
      · rw [hraw]
        intro s hs'
        rcases List.mem_append.mp hs' with hs'' | hs''
        · exact h.times s hs''
        · simp only [List.mem_singleton] at hs''
          subst hs''
          simp [newSeg]
      · rw [hraw]
        intro s hs'
        rcases List.mem_append.mp hs' with hs'' | hs''
        · obtain ⟨g0, hg0, he0⟩ := h.endsLe s hs''
          exact ⟨g0, List.mem_append_left _ hg0, he0⟩
        · simp only [List.mem_singleton] at hs''
          subst hs''
          exact ⟨f, List.mem_append_right _ (List.mem_singleton_self f), rfl⟩
      · rw [hraw]
        rw [List.map_append, h.ids, List.length_append]
        simp only [newSeg, List.map_cons, List.map_nil, List.length_singleton]
        rw [List.range'_concat]
        simp [Nat.add_comm]
      · rw [hraw]
        intro s hs'
        rcases List.mem_append.mp hs' with hs'' | hs''
        · rw [List.countP_append, ← h.counts s hs'']
          simp [List.countP_cons, hnotin s hs'']
        · simp only [List.mem_singleton] at hs''
          subst hs''
          rw [List.countP_append]
          have h0 : done.countP (fun g0 => !is_blank_frame (fimg g0) bt &&
              inRange (fnum g0) (newSeg vid (rawOf st).length f)) = 0 :=
            List.countP_eq_zero.mpr fun x hx => by
              have : inRange (fnum x) (newSeg vid (rawOf st).length f) = false := by
                apply inRange_false_of_gt
                simp only [newSeg]
                exact hd x hx
              simp [this]
          rw [h0]
          have hff : (!is_blank_frame (fimg f) bt &&
              inRange (fnum f) (newSeg vid (rawOf st).length f)) = true := by
            rw [hb, hnewr]; rfl
          simp only [List.countP_cons, List.countP_nil, hff]
          simp [newSeg]
      · rw [hraw]
        intro g0 hg0
        rcases List.mem_append.mp hg0 with hg0' | hg0'
        · rw [List.countP_append, h.cover g0 hg0']
          have : inRange (fnum g0) (newSeg vid (rawOf st).length f) = false := by
            apply inRange_false_of_gt
            simp only [newSeg]
            exact hd g0 hg0'
          simp [List.countP_cons, this]
        · simp only [List.mem_singleton] at hg0'
          rw [hg0']
          rw [hb]
          simp only [Bool.false_eq_true, if_false]
          rw [List.countP_append]
          have h0 : List.countP (inRange (fnum f)) (rawOf st) = 0 :=
            List.countP_eq_zero.mpr fun s hs' => by simp [hnotin s hs']
          rw [h0]
          simp [List.countP_cons, hnewr]
      · simp [hlast]
      · simp [hlast, hb]
      · intro c' hc'
        simp only [Option.some_inj] at hc'
        subst hc'
        exact ⟨f, hlast, by simp [newSeg]⟩

theorem segInv_foldl (vid : Filename) (dt bt : ℚ) :
    ∀ (frames done : List FrameIn) (st : SegState),
      List.Pairwise (fun a b => fnum a < fnum b) (done ++ frames) →
      SegInv bt done st →
      SegInv bt (done ++ frames) (frames.foldl (segStep vid dt bt) st) := by
  intro frames
  induction frames with
  | nil => intro done st hp h; simpa using h
  | cons f fs ih =>
    intro done st hp h
    have hp' : List.Pairwise (fun a b => fnum a < fnum b) ((done ++ [f]) ++ fs) := by
      simpa [List.append_assoc] using hp
    have hpa := List.pairwise_append.mp hp
    have hd : ∀ g ∈ done, fnum g < fnum f := fun g hg =>
      hpa.2.2 g hg f (List.mem_cons_self f fs)
    have hstep := segInv_step vid dt bt done st f hd hpa.1 h
    have hres := ih (done ++ [f]) (segStep vid dt bt st f) hp' hstep
    simpa [List.append_assoc] using hres

theorem segInv_run (vid : Filename) (dt bt : ℚ) (frames : List FrameIn)
    (hp : List.Pairwise (fun a b => fnum a < fnum b) frames) :
    SegInv bt frames
      (frames.foldl (segStep vid dt bt) { segments := [], current := none, prev := none }) := by
  have h := segInv_foldl vid dt bt frames []
    { segments := [], current := none, prev := none } (by simpa using hp) (segInv_init bt)
  simpa using h

theorem segmentFramesRaw_eq (vid : Filename) (dt bt : ℚ) (frames : List FrameIn) :
    segmentFramesRaw vid dt bt frames =
      rawOf (frames.foldl (segStep vid dt bt)
        { segments := [], current := none, prev := none }) := rfl

theorem ids_get {l : List Segment} (h : l.map Segment.segment_id = List.range' 1 l.length)
    {i : Nat} (hi : i < l.length) : (l.get ⟨i, hi⟩).segment_id = i + 1 := by
  have hm : i < (l.map Segment.segment_id).length := by simpa using hi
  have hr : i < (List.range' 1 l.length).length := by simpa using hi
  have h2 : (l.map Segment.segment_id)[i] = (List.range' 1 l.length)[i] := by
    simp only [h]
  rw [List.getElem_map, List.getElem_range'] at h2
  simp only [List.get_eq_getElem]
  omega

/-- Pairwise strict ordering of end/start times on the raw segment list. -/
theorem raw_pairwise_times (vid : Filename) (dt bt : ℚ) (frames : List FrameIn)
    (hp : List.Pairwise (fun a b => fnum a < fnum b) frames) :
    (segmentFramesRaw vid dt bt frames).Pairwise
      (fun a b => a.end_time < b.start_time ∧ a.start_time < b.start_time) := by
  have hinv := segInv_run vid dt bt frames hp
  rw [segmentFramesRaw_eq]
  refine List.Pairwise.imp_of_mem ?_ hinv.ordered
  intro a b ha hb hr
  have hta := hinv.times a ha
  have htb := hinv.times b hb
  have hba := hinv.bounds a ha
  constructor
  · rw [hta.2, htb.1]
    omega
  · rw [hta.1, htb.1]
    omega

/-- Pairwise strict ordering of segment ids on the raw segment list. -/
theorem raw_pairwise_ids (vid : Filename) (dt bt : ℚ) (frames : List FrameIn)
    (hp : List.Pairwise (fun a b => fnum a < fnum b) frames) :
    (segmentFramesRaw vid dt bt frames).Pairwise
      (fun a b => a.segment_id < b.segment_id) := by
  have hinv := segInv_run vid dt bt frames hp
  rw [segmentFramesRaw_eq]
  rw [List.pairwise_iff_get]
  intro i j hij
  have hi := ids_get hinv.ids i.isLt
  have hj := ids_get hinv.ids j.isLt
  rw [hi, hj]
  omega

theorem filterShort_sublist (minDur : Int) (segs : List Segment) :
    (filterShort minDur segs).Sublist segs := List.filter_sublist segs

/-! ## Frame counts under the no-gap assumption -/

theorem contigInv_init : ContigInv [] { segments := [], current := none, prev := none } := by
  constructor
  · intro s hs; simp [rawOf] at hs
  · intro c hc; simp at hc

theorem contigInv_step (vid : Filename) (dt bt : ℚ) (done : List FrameIn) (st : SegState)
    (f : FrameIn)
    (hnext : ∀ g, done.getLast? = some g → fnum f = fnum g + 1)
    (h : ContigInv done st) :
    ContigInv (done ++ [f]) (segStep vid dt bt st f) := by
  have hlast : (done ++ [f]).getLast? = some f := List.getLast?_concat done
  by_cases hb : is_blank_frame (fimg f) bt = true
  · rw [segStep_blank vid dt bt st f hb]
    constructor
    · intro s hs
      apply h.cnt
      simpa [rawOf] using hs
    · intro c hc; simp at hc
  · rw [Bool.not_eq_true] at hb
    by_cases hs : isSameAt bt dt st.prev (fimg f) = true
    · cases hc : st.current with
      | none =>
        rw [segStep_same_none vid dt bt st f hb hs hc]
        constructor
        · intro s hs'
          apply h.cnt
          simp only [rawOf, hc, Option.toList_none, List.append_nil] at hs' ⊢
          exact hs'
        · intro c hc'; simp at hc'
      | some c =>
        rw [segStep_extend vid dt bt st f hb hs c hc]
        obtain ⟨g, hgl, hce⟩ := h.curEnd c hc
        have hn : fnum f = fnum g + 1 := hnext g hgl
        have hro : rawOf st = st.segments ++ [c] := by
          simp [rawOf, hc]
        constructor
        · intro s hs'
          simp only [rawOf, Option.toList_some] at hs'
          rcases List.mem_append.mp hs' with h1 | h1
          · have hsm : s ∈ rawOf st := by
              rw [hro]
              exact List.mem_append_left _ h1
            exact h.cnt s hsm
          · simp only [List.mem_singleton] at h1
            subst h1
            have hcm : c ∈ rawOf st := by
              rw [hro]
              exact List.mem_append_right _ (List.mem_singleton_self c)
            have hcc := h.cnt c hcm
            simp only [extendSeg]
            push_cast
            omega
        · intro c' hc'
          simp only [SegState.current, Option.some_inj] at hc'
          subst hc'
          exact ⟨f, hlast, by simp [extendSeg]⟩
    · rw [Bool.not_eq_true] at hs
      rw [segStep_open vid dt bt st f hb hs]
      constructor
      · intro s hs'
        simp only [rawOf, Option.toList_some] at hs'
        rcases List.mem_append.mp hs' with h1 | h1
        · exact h.cnt s h1
        · simp only [List.mem_singleton] at h1
          subst h1
          simp [newSeg]
      · intro c' hc'
        simp only [Option.some_inj] at hc'
        subst hc'
        exact ⟨f, hlast, by simp [newSeg]⟩

theorem contigInv_foldl (vid : Filename) (dt bt : ℚ) :
    ∀ (frames done : List FrameIn) (st : SegState),
      List.Chain' (fun a b => fnum b = fnum a + 1) (done ++ frames) →
      ContigInv done st →
      ContigInv (done ++ frames) (frames.foldl (segStep vid dt bt) st) := by
  intro frames
  induction frames with
  | nil => intro done st _ h; simpa using h
  | cons f fs ih =>
    intro done st hch h
    have hc3 := List.chain'_append.mp hch
    have hnext : ∀ g, done.getLast? = some g → fnum f = fnum g + 1 := by
      intro g hg
      exact hc3.2.2 g hg f rfl
    have hstep := contigInv_step vid dt bt done st f hnext h
    have hch' : List.Chain' (fun a b => fnum b = fnum a + 1) ((done ++ [f]) ++ fs) := by
      simpa [List.append_assoc] using hch
    have hres := ih (done ++ [f]) (segStep vid dt bt st f) hch' hstep
    simpa [List.append_assoc] using hres

theorem contigInv_run (vid : Filename) (dt bt : ℚ) (frames : List FrameIn)
    (hch : List.Chain' (fun a b => fnum b = fnum a + 1) frames) :
    ContigInv frames
      (frames.foldl (segStep vid dt bt) { segments := [], current := none, prev := none }) := by
  have h := contigInv_foldl vid dt bt frames []
    { segments := [], current := none, prev := none } (by simpa using hch) contigInv_init
  simpa using h

theorem blankA1 : is_blank_frame (fimg frameA1) 30 = false := by
  simp only [fimg, frameA1, is_blank_frame, sqrtLtB, variance, luminance, listMean,
    List.flatten, List.map, List.sum_cons, List.sum_nil, List.length,
    Bool.and_eq_false_iff, decide_eq_false_iff_not]
  norm_num

theorem blankA2 : is_blank_frame (fimg frameA2) 30 = false := by
  simp only [fimg, frameA2, is_blank_frame, sqrtLtB, variance, luminance, listMean,
    List.flatten, List.map, List.sum_cons, List.sum_nil, List.length,
    Bool.and_eq_false_iff, decide_eq_false_iff_not]
  norm_num

theorem blankA3 : is_blank_frame (fimg frameA3) 30 = false := by
  simp only [fimg, frameA3, is_blank_frame, sqrtLtB, variance, luminance, listMean,
    List.flatten, List.map, List.sum_cons, List.sum_nil, List.length,
    Bool.and_eq_false_iff, decide_eq_false_iff_not]
  norm_num

theorem blankA4 : is_blank_frame (fimg frameA4) 30 = false := by
  simp only [fimg, frameA4, is_blank_frame, sqrtLtB, variance, luminance, listMean,
    List.flatten, List.map, List.sum_cons, List.sum_nil, List.length,
    Bool.and_eq_false_iff, decide_eq_false_iff_not]
  norm_num

theorem blankA5 : is_blank_frame (fimg frameA5) 30 = false := by
  simp only [fimg, frameA5, is_blank_frame, sqrtLtB, variance, luminance, listMean,
    List.flatten, List.map, List.sum_cons, List.sum_nil, List.length,
    Bool.and_eq_false_iff, decide_eq_false_iff_not]
  norm_num

theorem blankA6 : is_blank_frame (fimg frameA6) 30 = true := by
  simp only [fimg, frameA6, is_blank_frame, sqrtLtB, variance, luminance, listMean,
    List.flatten, List.map, List.sum_cons, List.sum_nil, List.length,
    Bool.and_eq_true, decide_eq_true_eq]
  norm_num

theorem blankA7 : is_blank_frame (fimg frameA7) 30 = false := by
  simp only [fimg, frameA7, is_blank_frame, sqrtLtB, variance, luminance, listMean,
    List.flatten, List.map, List.sum_cons, List.sum_nil, List.length,
    Bool.and_eq_false_iff, decide_eq_false_iff_not]
  norm_num

theorem sameA12 : isSameAt 30 15 (some (fimg frameA1)) (fimg frameA2) = true := by
  rw [isSameAt, blankA1]
  simp only [fimg, frameA1, frameA2, calculate_frame_difference, imgVals, listMean,
    List.flatten, List.zip, List.zipWith, List.map, List.sum_cons, List.sum_nil,
    List.length, Bool.not_false, Bool.true_and, decide_eq_true_eq]
  norm_num

theorem sameA23 : isSameAt 30 15 (some (fimg frameA2)) (fimg frameA3) = true := by
  rw [isSameAt, blankA2]
  simp only [fimg, frameA2, frameA3, calculate_frame_difference, imgVals, listMean,
    List.flatten, List.zip, List.zipWith, List.map, List.sum_cons, List.sum_nil,
    List.length, Bool.not_false, Bool.true_and, decide_eq_true_eq]
  norm_num

theorem sameA34 : isSameAt 30 15 (some (fimg frameA3)) (fimg frameA4) = true := by
  rw [isSameAt, blankA3]
  simp only [fimg, frameA3, frameA4, calculate_frame_difference, imgVals, listMean,
    List.flatten, List.zip, List.zipWith, List.map, List.sum_cons, List.sum_nil,
    List.length, Bool.not_false, Bool.true_and, decide_eq_true_eq]
  norm_num

theorem sameA45 : isSameAt 30 15 (some (fimg frameA4)) (fimg frameA5) = true := by
  rw [isSameAt, blankA4]
  simp only [fimg, frameA4, frameA5, calculate_frame_difference, imgVals, listMean,
    List.flatten, List.zip, List.zipWith, List.map, List.sum_cons, List.sum_nil,
    List.length, Bool.not_false, Bool.true_and, decide_eq_true_eq]
  norm_num

theorem sameA67 : isSameAt 30 15 (some (fimg frameA6)) (fimg frameA7) = false := by
  rw [isSameAt, blankA6]
  simp

theorem isSameAt_none (bt dt : ℚ) (img : Img) : isSameAt bt dt none img = false := rfl

/-- Running the forward pass on scenario A yields exactly the two expected
segments. -/
theorem rawA : segmentFramesRaw vidA 15 30 framesA = [segA1, segA2] := by
  rw [segmentFramesRaw_eq]
  simp only [framesA, List.foldl_cons, List.foldl_nil, segStep, isSameAt_none,
    blankA1, blankA2, blankA3, blankA4, blankA5, blankA6, blankA7,
    sameA12, sameA23, sameA34, sameA45, sameA67,
    Bool.false_eq_true, Bool.true_eq_false, if_false, if_true, ite_true, ite_false,
    Option.toList_some, Option.toList_none, rawOf, List.nil_append, List.append_nil]
  simp only [newSeg, extendSeg, segA1, segA2, vidA, fnum, ffn, frameA1, frameA2, frameA3,
    frameA4, frameA5, frameA6, frameA7, fnA, List.length_cons, List.length_nil]
  norm_num

theorem blankB1 : is_blank_frame (fimg frameB1) 30 = false := by
  simp only [fimg, frameB1, is_blank_frame, sqrtLtB, variance, luminance, listMean,
    List.flatten, List.map, List.sum_cons, List.sum_nil, List.length,
    Bool.and_eq_false_iff, decide_eq_false_iff_not]
  norm_num

theorem rawB : segmentFramesRaw vidA 15 30 framesB = [segB1] := by
  rw [segmentFramesRaw_eq]
  simp only [framesB, List.foldl_cons, List.foldl_nil, segStep, isSameAt_none, blankB1,
    Bool.false_eq_true, if_false, ite_false, Option.toList_some, Option.toList_none,
    rawOf, List.nil_append, List.append_nil]
  simp only [newSeg, segB1, vidA, fnum, ffn, frameB1, fnB, List.length_nil]
  norm_num

theorem filteredB : segmentFramesFiltered vidA 15 30 2 framesB = [] := by
  rw [segmentFramesFiltered, rawB]
  simp only [filterShort, List.filter_cons, List.filter_nil, segB1]
  norm_num

/-- With `blank_threshold = 0` no frame is ever blank (`std < 0` is
impossible). -/
theorem blank_zero (img : Img) : is_blank_frame img 0 = false := by
  simp [is_blank_frame, sqrtLtB]

theorem sameC5 : isSameAt 0 5 (some (fimg frameC1)) (fimg frameC2) = false := by
  rw [isSameAt, blank_zero]
  simp only [fimg, frameC1, frameC2, calculate_frame_difference, imgVals, listMean,
    List.flatten, List.zip, List.zipWith, List.map, List.sum_cons, List.sum_nil,
    List.length, Bool.not_false, Bool.true_and, decide_eq_false_iff_not]
  norm_num

theorem sameC15 : isSameAt 0 15 (some (fimg frameC1)) (fimg frameC2) = true := by
  rw [isSameAt, blank_zero]
  simp only [fimg, frameC1, frameC2, calculate_frame_difference, imgVals, listMean,
    List.flatten, List.zip, List.zipWith, List.map, List.sum_cons, List.sum_nil,
    List.length, Bool.not_false, Bool.true_and, decide_eq_true_eq]
  norm_num

theorem rawC5 : segmentFramesRaw vidA 5 0 framesC = [segC1, segC2] := by
  rw [segmentFramesRaw_eq]
  simp only [framesC, List.foldl_cons, List.foldl_nil, segStep, isSameAt_none, blank_zero,
    sameC5, Bool.false_eq_true, if_false, ite_false, Option.toList_some, Option.toList_none,
    rawOf, List.nil_append, List.append_nil]
  simp only [newSeg, segC1, segC2, vidA, fnum, ffn, frameC1, frameC2, fnA,
    List.length_nil, List.length_cons]
  norm_num

theorem rawC15 : segmentFramesRaw vidA 15 0 framesC = [segC12] := by
  rw [segmentFramesRaw_eq]
  simp only [framesC, List.foldl_cons, List.foldl_nil, segStep, isSameAt_none, blank_zero,
    sameC15, Bool.false_eq_true, if_false, if_true, ite_false, ite_true,
    Option.toList_some, Option.toList_none, rawOf, List.nil_append, List.append_nil]
  simp only [newSeg, extendSeg, segC12, vidA, fnum, ffn, frameC1, frameC2, fnA,
    List.length_nil]
  norm_num

theorem filteredC5 : segmentFramesFiltered vidA 5 0 2 framesC = [] := by
  rw [segmentFramesFiltered, rawC5]
  simp only [filterShort, List.filter_cons, List.filter_nil, segC1, segC2]
  norm_num

theorem filteredC15 : segmentFramesFiltered vidA 15 0 2 framesC = [segC12] := by
  rw [segmentFramesFiltered, rawC15]
  simp only [filterShort, List.filter_cons, List.filter_nil, segC12]
  norm_num

/-! ## Loader lemmas -/

theorem digitVal_le (c : Char) (hc : c.isDigit = true) : digitVal c ≤ 9 := by
  simp only [Char.isDigit, Bool.and_eq_true, decide_eq_true_eq] at hc
  have h3 : c.val.toNat ≤ 57 := hc.2
  unfold digitVal
  unfold Char.toNat
  omega

theorem matchFrame_le (vid fn : Filename) (n : Nat) (h : matchFrame vid fn = some n) :
    n ≤ 9999 := by
  unfold matchFrame at h
  split at h
  · split at h
    · split at h
      · rename_i hcond
        injection h with hn
        obtain ⟨hrest, hd1, hd2, hd3, hd4⟩ := hcond
        have b1 := digitVal_le _ hd1
        have b2 := digitVal_le _ hd2
        have b3 := digitVal_le _ hd3
        have b4 := digitVal_le _ hd4
        omega
      · simp at h
    · simp at h
  · simp at h

theorem mem_insertFrame (x y : Nat × Filename) (l : List (Nat × Filename)) :
    y ∈ insertFrame x l ↔ y = x ∨ y ∈ l := by
  induction l with
  | nil => simp [insertFrame]
  | cons a l ih =>
    rw [insertFrame]
    by_cases h : x.1 ≤ a.1
    · rw [if_pos h]
      simp [List.mem_cons]
    · rw [if_neg h]
      simp only [List.mem_cons, ih]
      tauto

theorem mem_sortFrames (y : Nat × Filename) (l : List (Nat × Filename)) :
    y ∈ sortFrames l ↔ y ∈ l := by
  induction l with
  | nil => simp [sortFrames]
  | cons a l ih =>
    rw [sortFrames, mem_insertFrame]
    simp only [List.mem_cons, ih]

/-! ## The claims -/

/-- C1 (amended): for every frame sequence, increasing `diff_threshold`
never increases the number of segments emitted by the forward pass before
the minimum-duration filter, and increasing `blank_threshold` never
decreases the number of frames classified as blank.  (After the
minimum-duration filter the segment count need not be antitone in the
diff threshold; see the counterexample.) -/
theorem threshold_monotonicity (vid : Filename) (bt : ℚ) (frames : List FrameIn)
    (t1 t2 : ℚ) (hdt : t1 ≤ t2) (b1 b2 : ℚ) (hbt : b1 ≤ b2) :
    (segmentFramesRaw vid t2 bt frames).length ≤
      (segmentFramesRaw vid t1 bt frames).length ∧
    (frames.countP fun f => is_blank_frame (fimg f) b1) ≤
      (frames.countP fun f => is_blank_frame (fimg f) b2) := by
  constructor
  · have hok : prevOk bt { segments := [], current := none, prev := none } := by
      intro p hp hnb
      exact Option.noConfusion hp
    exact foldl_rawLen_antitone vid bt hdt frames
      { segments := [], current := none, prev := none }
      { segments := [], current := none, prev := none } rfl rfl hok hok le_rfl
  · exact List.countP_mono_left fun f hf hb => is_blank_frame_mono hbt (fimg f) hb

theorem threshold_monotonicity_witness :
    (segmentFramesRaw vidA 15 30 framesA).length ≤
      (segmentFramesRaw vidA 5 30 framesA).length ∧
    (framesA.countP fun f => is_blank_frame (fimg f) 20) ≤
      (framesA.countP fun f => is_blank_frame (fimg f) 30) :=
  threshold_monotonicity vidA 30 framesA 5 15 (by decide) 20 30 (by decide)

/-- C1 counterexample: with `min_segment_duration = 2` and
`blank_threshold = 0`, raising `diff_threshold` from 5 to 15 merges two
duration-1 segments (both dropped by the filter) into one duration-2
segment (kept), so the number of segments returned after the filter
increases with the threshold, contradicting the claim as stated about the
final output of `segment_frames`. -/
theorem threshold_monotonicity_counterexample :
    (5 : ℚ) ≤ 15 ∧
    ¬ ((segmentFramesFiltered vidA 15 0 2 framesC).length ≤
        (segmentFramesFiltered vidA 5 0 2 framesC).length) := by
  refine ⟨by norm_num, ?_⟩
  rw [filteredC5, filteredC15]
  simp

/-- C2: for every strictly sorted frame sequence, in the segment list
produced by the forward pass before the minimum-duration filter, every
non-blank frame's number lies in the frame range of exactly one segment
and every blank frame's number lies in the range of none. -/
theorem nonblank_frames_covered_exactly_once (vid : Filename) (dt bt : ℚ)
    (frames : List FrameIn)
    (hp : List.Pairwise (fun a b => fnum a < fnum b) frames) :
    ∀ f ∈ frames, (segmentFramesRaw vid dt bt frames).countP (inRange (fnum f)) =
      if is_blank_frame (fimg f) bt then 0 else 1 := by
  have hinv := segInv_run vid dt bt frames hp
  intro f hf
  rw [segmentFramesRaw_eq]
  exact hinv.cover f hf

theorem nonblank_frames_covered_exactly_once_witness :
    ((segmentFramesRaw vidA 15 30 framesA).countP (inRange (fnum frameA3)) =
      if is_blank_frame (fimg frameA3) 30 then 0 else 1) ∧
    ((segmentFramesRaw vidA 15 30 framesA).countP (inRange (fnum frameA6)) =
      if is_blank_frame (fimg frameA6) 30 then 0 else 1) :=
  ⟨nonblank_frames_covered_exactly_once vidA 15 30 framesA (by decide) frameA3
      (by simp [framesA]),
    nonblank_frames_covered_exactly_once vidA 15 30 framesA (by decide) frameA6
      (by simp [framesA])⟩

/-- C3: segment ids are 1-based and sequential in emission order (the
`i`-th raw segment carries id `i + 1`), and in the final filtered output
the ids are strictly increasing in list order, which coincides with
start-time order. -/
theorem segment_ids_sequential (vid : Filename) (dt bt : ℚ) (minDur : Int)
    (frames : List FrameIn)
    (hp : List.Pairwise (fun a b => fnum a < fnum b) frames) :
    (∀ (i : Nat) (hi : i < (segmentFramesRaw vid dt bt frames).length),
      ((segmentFramesRaw vid dt bt frames).get ⟨i, hi⟩).segment_id = i + 1) ∧
    (segmentFramesFiltered vid dt bt minDur frames).Pairwise
      (fun a b => a.segment_id < b.segment_id ∧ a.start_time < b.start_time) := by
  constructor
  · intro i hi
    exact ids_get (segInv_run vid dt bt frames hp).ids hi
  · have h1 := raw_pairwise_ids vid dt bt frames hp
    have h2 := raw_pairwise_times vid dt bt frames hp
    have h3 : (segmentFramesRaw vid dt bt frames).Pairwise
        (fun a b => a.segment_id < b.segment_id ∧ a.start_time < b.start_time) :=
      (h1.and h2).imp fun h => ⟨h.1, h.2.2⟩
    exact List.Pairwise.sublist (filterShort_sublist minDur _) h3

theorem segment_ids_sequential_witness :
    (segmentFramesFiltered vidA 15 30 1 framesA).Pairwise
      (fun a b => a.segment_id < b.segment_id ∧ a.start_time < b.start_time) :=
  (segment_ids_sequential vidA 15 30 1 framesA (by decide)).2

/-- C4: when no directory entry matches the `{video_id}_dddd.jpg`
pattern, `segment_frames` fails with the no-frames error before any
segmentation work and produces no (partial) segment output. -/
theorem no_frames_found_error (listing : List Filename) (imgOf : Filename → Img)
    (vid : Filename) (dt bt : ℚ) (m : Int)
    (h : ∀ fn ∈ listing, matchFrame vid fn = none) :
    segment_frames listing imgOf vid dt bt m = Except.error SegError.noFramesFound := by
  have hfm : listing.filterMap (fun fn => (matchFrame vid fn).map fun n => (n, fn)) = [] := by
    rw [List.filterMap_eq_nil]
    intro fn hfn
    rw [h fn hfn]
    rfl
  simp only [segment_frames, findFrameFiles]
  rw [hfm]
  rfl

theorem no_frames_found_error_witness :
    segment_frames [fnA '1'] (fun x => Img.gray [[0]]) ['w'] 15 30 1 =
      Except.error SegError.noFramesFound :=
  no_frames_found_error [fnA '1'] (fun x => Img.gray [[0]]) ['w'] 15 30 1 (by decide)

/-- C5: a non-blank frame whose immediately preceding frame was blank (or
which has no predecessor) always opens a new segment — the difference
threshold is never consulted, so the step's result does not depend on it —
and in the specification's scenario frame 0007 after blank frame 0006
starts segment 2 with `start_time = 6`. -/
theorem blank_always_forces_new_segment :
    (∀ (vid : Filename) (dt dt' bt : ℚ) (st : SegState) (f : FrameIn),
      is_blank_frame (fimg f) bt = false →
      (st.prev = none ∨ ∃ p, st.prev = some p ∧ is_blank_frame p bt = true) →
      segStep vid dt bt st f =
        { segments := rawOf st
          current := some (newSeg vid (rawOf st).length f)
          prev := some (fimg f) } ∧
      segStep vid dt bt st f = segStep vid dt' bt st f) ∧
    (segmentFramesRaw vidA 15 30 framesA = [segA1, segA2] ∧
      segA2.segment_id = 2 ∧ segA2.start_time = 6) := by
  constructor
  · intro vid dt dt' bt st f hb hprev
    have hsame : ∀ d : ℚ, isSameAt bt d st.prev (fimg f) = false := by
      intro d
      rcases hprev with hnone | ⟨p, hpv, hpb⟩
      · rw [hnone]; rfl
      · rw [hpv]
        simp [isSameAt, hpb]
    refine ⟨segStep_open vid dt bt st f hb (hsame dt), ?_⟩
    rw [segStep_open vid dt bt st f hb (hsame dt),
      segStep_open vid dt' bt st f hb (hsame dt')]
  · exact ⟨rawA, rfl, rfl⟩

theorem blank_always_forces_new_segment_witness :
    segStep vidA 15 30
        { segments := [], current := none, prev := some (fimg frameA6) } frameA7 =
      { segments := [], current := some (newSeg vidA 0 frameA7),
        prev := some (fimg frameA7) } :=
  (blank_always_forces_new_segment.1 vidA 15 999 30
    { segments := [], current := none, prev := some (fimg frameA6) } frameA7 blankA7
    (Or.inr ⟨fimg frameA6, rfl, blankA6⟩)).1

/-- C6: segments in the output never overlap in time and start times are
strictly increasing, both before and after the minimum-duration filter. -/
theorem segments_nonoverlapping_strictly_ordered (vid : Filename) (dt bt : ℚ)
    (minDur : Int) (frames : List FrameIn)
    (hp : List.Pairwise (fun a b => fnum a < fnum b) frames) :
    (segmentFramesRaw vid dt bt frames).Pairwise
      (fun a b => a.end_time < b.start_time ∧ a.start_time < b.start_time) ∧
    (segmentFramesFiltered vid dt bt minDur frames).Pairwise
      (fun a b => a.end_time < b.start_time ∧ a.start_time < b.start_time) := by
  have h := raw_pairwise_times vid dt bt frames hp
  exact ⟨h, List.Pairwise.sublist (filterShort_sublist minDur _) h⟩

theorem segments_nonoverlapping_strictly_ordered_witness :
    (segmentFramesRaw vidA 15 30 framesA).Pairwise
      (fun a b => a.end_time < b.start_time ∧ a.start_time < b.start_time) :=
  (segments_nonoverlapping_strictly_ordered vidA 15 30 1 framesA (by decide)).1

/-- C7: the final output equals the raw emitted list with exactly the
segments of duration `< min_segment_duration` removed — a post-pass
filter that never merges — and in the concrete scenario a segment with
`start_time = end_time = 10` present in the raw pass is absent from the
final output when `min_segment_duration = 2`. -/
theorem min_duration_filter_post_pass :
    (∀ (vid : Filename) (dt bt : ℚ) (m : Int) (frames : List FrameIn),
      (segmentFramesFiltered vid dt bt m frames).Sublist
        (segmentFramesRaw vid dt bt frames) ∧
      (∀ s : Segment, s ∈ segmentFramesFiltered vid dt bt m frames ↔
        s ∈ segmentFramesRaw vid dt bt frames ∧ m ≤ s.end_time - s.start_time + 1)) ∧
    (segB1 ∈ segmentFramesRaw vidA 15 30 framesB ∧
      segB1.start_time = 10 ∧ segB1.end_time = 10 ∧
      segB1 ∉ segmentFramesFiltered vidA 15 30 2 framesB) := by
  constructor
  · intro vid dt bt m frames
    refine ⟨filterShort_sublist m _, ?_⟩
    intro s
    rw [segmentFramesFiltered, filterShort, List.mem_filter]
    simp
  · refine ⟨?_, rfl, rfl, ?_⟩
    · rw [rawB]
      exact List.mem_singleton_self segB1
    · rw [filteredB]
      simp

/-- C8: every emitted segment satisfies `end_time >= start_time`;
`frame_count` always equals the number of non-blank input frames whose
number lies in the segment's range; and under the no-gap hypothesis
(consecutive frame numbers) `frame_count = end_frame - start_frame + 1`. -/
theorem segment_time_and_count_invariants (vid : Filename) (dt bt : ℚ)
    (frames : List FrameIn)
    (hp : List.Pairwise (fun a b => fnum a < fnum b) frames) :
    (∀ s ∈ segmentFramesRaw vid dt bt frames,
      s.start_time ≤ s.end_time ∧
      s.frame_count = frames.countP
        (fun g => !is_blank_frame (fimg g) bt && inRange (fnum g) s)) ∧
    (List.Chain' (fun a b => fnum b = fnum a + 1) frames →
      ∀ s ∈ segmentFramesRaw vid dt bt frames,
        (s.frame_count : Int) = (s.end_frame : Int) - (s.start_frame : Int) + 1) := by
  have hinv := segInv_run vid dt bt frames hp
  constructor
  · intro s hs
    rw [segmentFramesRaw_eq] at hs
    have ht := hinv.times s hs
    have hbnd := hinv.bounds s hs
    refine ⟨?_, hinv.counts s hs⟩
    rw [ht.1, ht.2]
    omega
  · intro hch s hs
    rw [segmentFramesRaw_eq] at hs
    exact (contigInv_run vid dt bt frames hch).cnt s hs

theorem segment_time_and_count_invariants_witness :
    segA1.start_time ≤ segA1.end_time ∧
    segA1.frame_count = framesA.countP
      (fun g => !is_blank_frame (fimg g) 30 && inRange (fnum g) segA1) :=
  (segment_time_and_count_invariants vidA 15 30 framesA (by decide)).1 segA1
    (by simp [rawA])

/-- C9: the classifier marks a frame blank iff the standard deviation
(the real square root of the variance) of its luminance — per-pixel
channel mean for a 3-dimensional array, the raw values otherwise — is
strictly below `blank_threshold`. -/
theorem blank_iff_std_below_threshold (img : Img) (t : ℚ) :
    is_blank_frame img t = true ↔
      Real.sqrt ((variance (luminance img) : ℚ) : ℝ) < (t : ℝ) :=
  sqrtLtB_iff (variance (luminance img)) t

/-- C10: the loader accepts only file names whose frame-number field is
exactly four digits: a 3-digit or 5-digit field is silently excluded, and
every frame number that enters segmentation is at most 9999. -/
theorem frame_number_four_digits_only :
    (∀ (vid fn : Filename) (n : Nat), matchFrame vid fn = some n → n ≤ 9999) ∧
    (∀ (vid : Filename) (listing : List Filename) (p : Nat × Filename),
      p ∈ findFrameFiles vid listing → p.1 ≤ 9999) ∧
    matchFrame ['v'] ['v', '_', '0', '0', '1', '.', 'j', 'p', 'g'] = none ∧
    matchFrame ['v'] ['v', '_', '1', '2', '3', '4', '5', '.', 'j', 'p', 'g'] = none ∧
    matchFrame ['v'] ['v', '_', '0', '0', '1', '2', '.', 'j', 'p', 'g'] = some 12 := by
  refine ⟨matchFrame_le, ?_, by decide, by decide, by decide⟩
  intro vid listing p hp
  rw [findFrameFiles, mem_sortFrames, List.mem_filterMap] at hp
  obtain ⟨fn, hfn, hsome⟩ := hp
  rw [Option.map_eq_some'] at hsome
  obtain ⟨n, hmatch, hpn⟩ := hsome
  have hb := matchFrame_le vid fn n hmatch
  rw [← hpn]
  exact hb

theorem frame_number_four_digits_only_witness : (12 : Nat) ≤ 9999 :=
  frame_number_four_digits_only.1 ['v']
    ['v', '_', '0', '0', '1', '2', '.', 'j', 'p', 'g'] 12 (by decide)

end SegmentFrames
